import Mathlib

/-
Verification development for the agora chat node.

Shallow embedding conventions:
- PeerId (libp2p) is modelled as Nat; Multiaddr as Nat.
- Rust String values are modelled as their UTF-8 byte sequences, List Nat
  (RustString below); equality of Rust strings is equality of byte lists.
- The CBOR wire format (serde_cbor) is modelled at byte level for the
  subset of CBOR the program emits and consumes.
-/

/-- Model of libp2p PeerId. -/
abbrev PeerId := Nat

/-- Model of libp2p Multiaddr. -/
abbrev Multiaddr := Nat

/-- Model of a Rust String as its UTF-8 byte sequence. -/
abbrev RustString := List Nat

/-- ChatApi from src/api.rs: the two application message kinds.
The origin_timestamp is serialized with chrono ts_milliseconds, i.e. an
i64 count of milliseconds since the epoch, modelled as Int. -/
inductive ChatApi
  | Message (message : RustString) (origin_timestamp : Int)
  | ChangeNickname (nick : RustString)
  deriving DecidableEq, Repr

/- CBOR byte-level codec (serde_cbor, standard externally-tagged encoding). -/

/-- Big-endian byte writer: k bytes of n (as serde_cbor writes u16/u32/u64). -/
def writeBE : Nat → Nat → List Nat
  | 0, _ => []
  | k + 1, n => (n / 256 ^ k) :: writeBE k (n % 256 ^ k)

/-- Big-endian byte reader: k bytes, returning the value and the rest. -/
def readBE : Nat → List Nat → Option (Nat × List Nat)
  | 0, rest => some (0, rest)
  | _ + 1, [] => none
  | k + 1, b :: rest => (readBE k rest).map (fun nr => (b * 256 ^ k + nr.1, nr.2))

/-- CBOR head: major type (3 bits) and argument with minimal-width encoding. -/
def encodeHead (major arg : Nat) : List Nat :=
  if arg < 24 then [major * 32 + arg]
  else if arg < 2 ^ 8 then (major * 32 + 24) :: writeBE 1 arg
  else if arg < 2 ^ 16 then (major * 32 + 25) :: writeBE 2 arg
  else if arg < 2 ^ 32 then (major * 32 + 26) :: writeBE 4 arg
  else (major * 32 + 27) :: writeBE 8 arg

/-- CBOR head decoder: returns (major, argument, rest). -/
def decodeHead : List Nat → Option (Nat × Nat × List Nat)
  | [] => none
  | b :: rest =>
    let major := b / 32
    let ai := b % 32
    if ai < 24 then some (major, ai, rest)
    else if ai = 24 then (readBE 1 rest).map (fun nr => (major, nr.1, nr.2))
    else if ai = 25 then (readBE 2 rest).map (fun nr => (major, nr.1, nr.2))
    else if ai = 26 then (readBE 4 rest).map (fun nr => (major, nr.1, nr.2))
    else if ai = 27 then (readBE 8 rest).map (fun nr => (major, nr.1, nr.2))
    else none

/-- CBOR text string: head with major type 3 and the UTF-8 bytes. -/
def serText (s : RustString) : List Nat := encodeHead 3 s.length ++ s

/-- Read exactly n bytes from the front of l. -/
def readExact (n : Nat) (l : List Nat) : Option (List Nat × List Nat) :=
  if n ≤ l.length then some (l.take n, l.drop n) else none

/-- CBOR text string reader. -/
def readText (l : List Nat) : Option (RustString × List Nat) :=
  match decodeHead l with
  | some (3, n, r) => readExact n r
  | _ => none

/-- CBOR integer: major type 0 for non-negative, major type 1 (value -1-n)
for negative, as serde_cbor serializes an i64. -/
def serInt (i : Int) : List Nat :=
  if 0 ≤ i then encodeHead 0 i.toNat else encodeHead 1 (-1 - i).toNat

/-- CBOR integer reader. -/
def readInt (l : List Nat) : Option (Int × List Nat) :=
  match decodeHead l with
  | some (0, n, r) => some ((n : Int), r)
  | some (1, n, r) => some (-1 - (n : Int), r)
  | _ => none

/-- UTF-8 bytes of "Message". -/
def strMessage : RustString := [77, 101, 115, 115, 97, 103, 101]

/-- UTF-8 bytes of "message". -/
def strMessageField : RustString := [109, 101, 115, 115, 97, 103, 101]

/-- UTF-8 bytes of "origin_timestamp". -/
def strOriginTimestamp : RustString :=
  [111, 114, 105, 103, 105, 110, 95, 116, 105, 109, 101, 115, 116, 97, 109, 112]

/-- UTF-8 bytes of "ChangeNickname". -/
def strChangeNickname : RustString :=
  [67, 104, 97, 110, 103, 101, 78, 105, 99, 107, 110, 97, 109, 101]

/-- UTF-8 bytes of "nick". -/
def strNick : RustString := [110, 105, 99, 107]

/-- serde_cbor::to_vec for ChatApi: the externally tagged encoding
{"VariantName": {field: value, ...}}, fields in declaration order. -/
def serializeChatApi : ChatApi → List Nat
  | .Message message origin_timestamp =>
    encodeHead 5 1 ++ serText strMessage ++
    encodeHead 5 2 ++ serText strMessageField ++ serText message ++
    serText strOriginTimestamp ++ serInt origin_timestamp
  | .ChangeNickname nick =>
    encodeHead 5 1 ++ serText strChangeNickname ++
    encodeHead 5 1 ++ serText strNick ++ serText nick

/-- serde_cbor::from_slice for ChatApi, restricted to the standard
externally tagged map shape the serializer emits; any other byte shape is
a decode error, modelled as none. Trailing bytes are a decode error, as
from_slice requires the whole slice to be consumed. -/
def deserializeChatApi (bs : List Nat) : Option ChatApi :=
  match decodeHead bs with
  | some (5, 1, r1) =>
    match readText r1 with
    | some (tag, r2) =>
      if tag = strMessage then
        match decodeHead r2 with
        | some (5, 2, r3) =>
          match readText r3 with
          | some (k1, r4) =>
            if k1 = strMessageField then
              match readText r4 with
              | some (msg, r5) =>
                match readText r5 with
                | some (k2, r6) =>
                  if k2 = strOriginTimestamp then
                    match readInt r6 with
                    | some (ts, r7) =>
                      if r7 = [] then some (.Message msg ts) else none
                    | none => none
                  else none
                | none => none
              | none => none
            else none
          | none => none
        | _ => none
      else if tag = strChangeNickname then
        match decodeHead r2 with
        | some (5, 1, r3) =>
          match readText r3 with
          | some (k1, r4) =>
            if k1 = strNick then
              match readText r4 with
              | some (nick, r5) =>
                if r5 = [] then some (.ChangeNickname nick) else none
              | none => none
            else none
          | none => none
        | _ => none
      else none
    | none => none
  | _ => none

/- p2p.rs: behaviour events, deferred action queue, event injection. -/

/-- PeerCondition from libp2p dial_opts: when a dial should proceed. -/
inductive PeerCondition
  | Disconnected
  | NotDialing
  | Always
  deriving DecidableEq, Repr

/-- DialOpts built in the mdns handler: target peer, dial condition, and
the addresses to dial. -/
structure DialOpts where
  peer : PeerId
  condition : PeerCondition
  addresses : List Multiaddr
  deriving DecidableEq, Repr

/-- BehaviourEvent from src/p2p.rs. -/
inductive BehaviourEvent
  | Chat (peer : PeerId) (message : ChatApi)
  deriving DecidableEq, Repr

/-- NetworkBehaviourAction as used by the Behaviour: either generate an
out-event or request a dial (the connection handler passed along with a
dial is irrelevant to the model). -/
inductive NetworkBehaviourAction
  | GenerateEvent (ev : BehaviourEvent)
  | Dial (opts : DialOpts)
  deriving DecidableEq, Repr

/-- GossipsubMessage: the fields the program reads (source, data); the
remaining fields (sequence number, topic) are unused by the handler. -/
structure GossipsubMessage where
  source : Option PeerId
  data : List Nat
  deriving DecidableEq, Repr

/-- GossipsubEvent variants matched by the handler; the message id of a
Message event is ignored by the code and modelled as Nat. -/
inductive GossipsubEvent
  | Message (propagation_source : PeerId) (message_id : Nat) (message : GossipsubMessage)
  | Subscribed
  | Unsubscribed
  | GossipsubNotSupported
  deriving DecidableEq, Repr

/-- MdnsEvent: lists of (peer, address) observations. -/
inductive MdnsEvent
  | Discovered (addrs : List (PeerId × Multiaddr))
  | Expired (addrs : List (PeerId × Multiaddr))
  deriving DecidableEq, Repr

/-- NetworkBehaviourEventProcess of GossipsubEvent for Behaviour
(src/p2p.rs inject_event): on a Message, attribute it to the signed
source if present, else to the propagation source; push a Chat event onto
the deferred queue only if the payload decodes. -/
def injectGossipsubEvent (events : List NetworkBehaviourAction) :
    GossipsubEvent → List NetworkBehaviourAction
  | .Message propagation_source _ message =>
    let peer := message.source.getD propagation_source
    match deserializeChatApi message.data with
    | some m => events ++ [.GenerateEvent (.Chat peer m)]
    | none => events
  | .Subscribed => events
  | .Unsubscribed => events
  | .GossipsubNotSupported => events

/-- BTreeMap entry(p).or_insert_with(Vec::new).push(a): insert a into the
address list of p, keeping keys in ascending order, appending a at the
end of an existing list. -/
def insertAddr (p : PeerId) (a : Multiaddr) :
    List (PeerId × List Multiaddr) → List (PeerId × List Multiaddr)
  | [] => [(p, [a])]
  | (q, l) :: rest =>
    if p = q then (q, l ++ [a]) :: rest
    else if p < q then (p, [a]) :: (q, l) :: rest
    else (q, l) :: insertAddr p a rest

/-- The addrs_per_peer BTreeMap of the mdns Discovered handler: group the
observed (peer, address) pairs by peer, in ascending key order. -/
def addrsPerPeer (obs : List (PeerId × Multiaddr)) : List (PeerId × List Multiaddr) :=
  obs.foldl (fun m pa => insertAddr pa.1 pa.2 m) []

/-- The dial actions the mdns Discovered handler builds: one per distinct
peer, in map iteration (ascending key) order, each with condition
PeerCondition.Disconnected and the peer's collected addresses. -/
def mdnsDials (obs : List (PeerId × Multiaddr)) : List DialOpts :=
  (addrsPerPeer obs).map (fun pl => ⟨pl.1, .Disconnected, pl.2⟩)

/-- NetworkBehaviourEventProcess of MdnsEvent for Behaviour
(src/p2p.rs inject_event): on Discovered, push one Dial action per
distinct observed peer onto the deferred queue; Expired does nothing. -/
def injectMdnsEvent (events : List NetworkBehaviourAction) :
    MdnsEvent → List NetworkBehaviourAction
  | .Discovered addrs => events ++ (mdnsDials addrs).map NetworkBehaviourAction.Dial
  | .Expired _ => events

/- main.rs: session state, swarm event handling, publish. -/

/-- BTreeSet insert: keep the list sorted ascending; the Bool is the Rust
return value, true iff the element was newly inserted. -/
def setInsert (p : PeerId) : List PeerId → List PeerId × Bool
  | [] => ([p], true)
  | q :: rest =>
    if p = q then (q :: rest, false)
    else if p < q then (p :: q :: rest, true)
    else
      let r := setInsert p rest
      (q :: r.1, r.2)

/-- BTreeSet remove: drop the (unique) occurrence of p, if any. -/
def setRemove (p : PeerId) : List PeerId → List PeerId
  | [] => []
  | q :: rest => if p = q then rest else q :: setRemove p rest

/-- BTreeMap get for the nickname map. -/
def mapGet (p : PeerId) : List (PeerId × RustString) → Option RustString
  | [] => none
  | (q, v) :: rest => if p = q then some v else mapGet p rest

/-- BTreeMap insert for the nickname map: store the value under p keeping
keys sorted ascending, and return the previous value (the Rust return
value of insert). -/
def mapInsert (p : PeerId) (v : RustString) :
    List (PeerId × RustString) → List (PeerId × RustString) × Option RustString
  | [] => ([(p, v)], none)
  | (q, w) :: rest =>
    if p = q then ((q, v) :: rest, some w)
    else if p < q then ((p, v) :: (q, w) :: rest, none)
    else
      let r := mapInsert p v rest
      ((q, w) :: r.1, r.2)

/-- State from src/main.rs: connected peers (BTreeSet) and known
nicknames (BTreeMap), both modelled as sorted lists. -/
structure State where
  connected_peers : List PeerId := []
  known_nicknames : List (PeerId × RustString) := []
  deriving DecidableEq, Repr

/-- The textual form of a peer identity, peer.to_string(): an injective
rendering of the identity as bytes (decimal digits here; the base58 form
of the real PeerId plays the same role). -/
def peerToString (p : PeerId) : RustString := (Nat.toDigits 10 p).map Char.toNat

/-- The display name used by the println calls:
known_nicknames.get(peer).unwrap_or(peer.to_string()). -/
def displayName (s : State) (p : PeerId) : RustString :=
  (mapGet p s.known_nicknames).getD (peerToString p)

/-- Lines printed by main.rs. The peer argument of ChatLine, Renamed,
Connected and Disconnected records which peer the notification is about
(the actual println shows only the derived name and timestamp). -/
inductive Output
  | ChatLine (peer : PeerId) (name : RustString) (timestamp : Int) (text : RustString)
  | Renamed (peer : PeerId) (oldName newName : RustString)
  | Connected (peer : PeerId) (name : RustString)
  | Disconnected (peer : PeerId) (name : RustString)
  | NoPeers
  deriving DecidableEq, Repr

/-- SwarmError from src/p2p.rs: EitherError of the gossipsub handler
error, void, and ping failure (void is uninhabited and elided). -/
inductive SwarmError
  | gossipsubHandler
  | pingFailure
  deriving DecidableEq, Repr

/-- SwarmEvent variants matched by handle_swarm_event; all variants the
code ignores are collapsed into Other. ConnectionClosed carries
num_established, the number of remaining established connections. -/
inductive SwarmEvent
  | Behaviour (ev : BehaviourEvent)
  | NewListenAddr (address : Multiaddr)
  | ConnectionEstablished (peer_id : PeerId)
  | ConnectionClosed (peer_id : PeerId) (num_established : Nat)
  | Other
  deriving DecidableEq, Repr

/-- Body of handle_swarm_event from src/main.rs: the state update and the
printed lines, in order. NewListenAddr only logs (no println output). -/
def handleSwarmEventCore (state : State) : SwarmEvent → State × List Output
  | .Behaviour (.Chat peer message) =>
    match message with
    | .Message text origin_timestamp =>
      (state, [.ChatLine peer (displayName state peer) origin_timestamp text])
    | .ChangeNickname nick =>
      let r := mapInsert peer nick state.known_nicknames
      let old := r.2.getD (peerToString peer)
      ({ state with known_nicknames := r.1 },
        if old ≠ nick then [.Renamed peer old nick] else [])
  | .NewListenAddr _ => (state, [])
  | .ConnectionEstablished peer_id =>
    let r := setInsert peer_id state.connected_peers
    ({ state with connected_peers := r.1 },
      if r.2 then [.Connected peer_id (displayName state peer_id)] else [])
  | .ConnectionClosed peer_id num_established =>
    if num_established = 0 then
      ({ state with connected_peers := setRemove peer_id state.connected_peers },
        [.Disconnected peer_id (displayName state peer_id)])
    else (state, [])
  | .Other => (state, [])

/-- handle_swarm_event returns anyhow::Result; every branch ends in
Ok(()), so the result is always ok. -/
def handle_swarm_event (state : State) (event : SwarmEvent) :
    Except SwarmError (State × List Output) :=
  Except.ok (handleSwarmEventCore state event)

/-- Process a list of swarm events in order, collecting all output. -/
def runEvents (s : State) : List SwarmEvent → State × List Output
  | [] => (s, [])
  | e :: rest =>
    let r := handleSwarmEventCore s e
    let r2 := runEvents r.1 rest
    (r2.1, r.2 ++ r2.2)

/-- PublishError of the gossipsub engine (libp2p). -/
inductive PublishError
  | InsufficientPeers
  | Duplicate
  | SigningError
  | MessageTooLarge
  | TransformFailed
  deriving DecidableEq, Repr

/-- The publish helper from src/main.rs. The outcome of the library call
gossipsub.publish (a message id on success) is passed in as a parameter,
since the gossip engine is an external library. InsufficientPeers prints
the "No peers available" notice and is swallowed; any other error is
returned to the caller (and propagated by the question-mark operator at
every call site in the driving loop); success prints nothing. -/
def publish (publishResult : Except PublishError Nat) :
    Except PublishError (List Output) :=
  match publishResult with
  | .error .InsufficientPeers => .ok [.NoPeers]
  | .error e => .error e
  | .ok _ => .ok []

/-- Modelled from the spec: the gossip engine's publish contract (libp2p
gossipsub, external to src/). Publishing with zero mesh peers subscribed
to the topic returns the InsufficientPeers error; otherwise the message
is accepted and assigned an id. -/
def gossipsubLibPublish (meshPeers : Nat) (msgId : Nat) : Except PublishError Nat :=
  if meshPeers = 0 then .error .InsufficientPeers else .ok msgId

/- Helper lemmas on the sorted-list models of BTreeSet and BTreeMap. -/

theorem mapGet_eq_none_of_lt (p : PeerId) (m : List (PeerId × RustString))
    (h : ∀ x ∈ m, p < x.1) : mapGet p m = none := by
  induction m with
  | nil => rfl
  | cons a rest ih =>
    obtain ⟨q, w⟩ := a
    have hpa : p < q := h (q, w) (by simp)
    have hne : ¬(p = q) := Nat.ne_of_lt hpa
    simp only [mapGet, if_neg hne]
    exact ih (fun x hx => h x (by simp [hx]))

theorem mapInsert_snd (p : PeerId) (v : RustString) (m : List (PeerId × RustString))
    (hs : List.Pairwise (fun a b => a.1 < b.1) m) :
    (mapInsert p v m).2 = mapGet p m := by
  induction m with
  | nil => rfl
  | cons a rest ih =>
    obtain ⟨q, w⟩ := a
    obtain ⟨ha, hrest⟩ := List.pairwise_cons.mp hs
    by_cases h1 : p = q
    · simp [mapInsert, mapGet, h1]
    · by_cases h2 : p < q
      · have hnone : mapGet p rest = none :=
          mapGet_eq_none_of_lt p rest (fun x hx => lt_trans h2 (ha x hx))
        simp [mapInsert, mapGet, h1, h2, hnone]
      · simp [mapInsert, mapGet, h1, h2, ih hrest]

theorem setRemove_of_not_mem (p : PeerId) (l : List PeerId) (h : p ∉ l) :
    setRemove p l = l := by
  induction l with
  | nil => rfl
  | cons q rest ih =>
    have h1 : ¬(p = q) := fun hc => h (by simp [hc])
    simp only [setRemove, if_neg h1]
    rw [ih (fun hc => h (by simp [hc]))]

theorem mem_setRemove (p q : PeerId) (l : List PeerId) (h : p ∈ l) (hne : p ≠ q) :
    p ∈ setRemove q l := by
  induction l with
  | nil => cases h
  | cons a rest ih =>
    rcases List.mem_cons.mp h with h1 | h1
    · have h2 : ¬(q = a) := fun hc => hne (by rw [h1, hc])
      simp [setRemove, if_neg h2, h1]
    · by_cases h2 : q = a
      · simpa [setRemove, h2] using h1
      · simp only [setRemove, if_neg h2]
        simp [ih h1]

theorem setRemove_sublist (p : PeerId) (l : List PeerId) :
    List.Sublist (setRemove p l) l := by
  induction l with
  | nil => simp [setRemove]
  | cons q rest ih =>
    by_cases h : p = q
    · simp only [setRemove, if_pos h]
      exact List.sublist_cons_self q rest
    · simp only [setRemove, if_neg h]
      exact List.Sublist.cons₂ q ih

theorem setRemove_pairwise (p : PeerId) (l : List PeerId)
    (hs : List.Pairwise (· < ·) l) : List.Pairwise (· < ·) (setRemove p l) :=
  List.Pairwise.sublist (setRemove_sublist p l) hs

theorem mem_setInsert_fst (p q : PeerId) (l : List PeerId) (h : p ∈ l) :
    p ∈ (setInsert q l).1 := by
  induction l with
  | nil => cases h
  | cons a rest ih =>
    by_cases h1 : q = a
    · simpa [setInsert, h1] using h
    · by_cases h2 : q < a
      · simp only [setInsert, if_neg h1, if_pos h2]
        simp [List.mem_cons.mp h]
      · simp only [setInsert, if_neg h1, if_neg h2]
        rcases List.mem_cons.mp h with h3 | h3
        · simp [h3]
        · simp [ih h3]

theorem mem_setInsert_fst_elim (x p : PeerId) (l : List PeerId)
    (h : x ∈ (setInsert p l).1) : x = p ∨ x ∈ l := by
  induction l with
  | nil => simpa [setInsert] using h
  | cons a rest ih =>
    by_cases h1 : p = a
    · simp only [setInsert, if_pos h1] at h
      right; exact h
    · by_cases h2 : p < a
      · simp only [setInsert, if_neg h1, if_pos h2] at h
        rcases List.mem_cons.mp h with h3 | h3
        · left; exact h3
        · right; exact h3
      · simp only [setInsert, if_neg h1, if_neg h2] at h
        rcases List.mem_cons.mp h with h3 | h3
        · right; simp [h3]
        · rcases ih h3 with h4 | h4
          · left; exact h4
          · right; simp [h4]

theorem setInsert_fst_pairwise (p : PeerId) (l : List PeerId)
    (hs : List.Pairwise (· < ·) l) : List.Pairwise (· < ·) (setInsert p l).1 := by
  induction l with
  | nil => simp [setInsert]
  | cons a rest ih =>
    obtain ⟨ha, hrest⟩ := List.pairwise_cons.mp hs
    by_cases h1 : p = a
    · simpa [setInsert, if_pos h1] using hs
    · by_cases h2 : p < a
      · simp only [setInsert, if_neg h1, if_pos h2]
        refine List.pairwise_cons.mpr ⟨?_, hs⟩
        intro x hx
        rcases List.mem_cons.mp hx with h3 | h3
        · rw [h3]; exact h2
        · exact lt_trans h2 (ha x h3)
      · simp only [setInsert, if_neg h1, if_neg h2]
        refine List.pairwise_cons.mpr ⟨?_, ih hrest⟩
        intro x hx
        rcases mem_setInsert_fst_elim x p rest hx with h3 | h3
        · rw [h3]
          exact Nat.lt_of_le_of_ne (Nat.le_of_not_lt h2) (fun hc => h1 hc.symm)
        · exact ha x h3

theorem setInsert_of_mem (p : PeerId) (l : List PeerId)
    (hs : List.Pairwise (· < ·) l) (h : p ∈ l) : setInsert p l = (l, false) := by
  induction l with
  | nil => cases h
  | cons a rest ih =>
    obtain ⟨ha, hrest⟩ := List.pairwise_cons.mp hs
    rcases List.mem_cons.mp h with h1 | h1
    · simp [setInsert, if_pos h1]
    · have hlt : a < p := ha p h1
      have hne : ¬(p = a) := Ne.symm (Nat.ne_of_lt hlt)
      have hnlt : ¬(p < a) := Nat.not_lt.mpr (Nat.le_of_lt hlt)
      simp [setInsert, if_neg hne, if_neg hnlt, ih hrest h1]

/-- Does this output line announce that peer p connected? -/
def Output.isConnectedFor (p : PeerId) : Output → Bool
  | .Connected q _ => q == p
  | _ => false

/-- One step of handle_swarm_event preserves sortedness of the connected
set and membership of a peer p that the event does not disconnect, and
emits no "connected" notification for p while p is in the set. -/
theorem step_preserves (s : State) (e : SwarmEvent) (p : PeerId)
    (hs : List.Pairwise (· < ·) s.connected_peers)
    (hm : p ∈ s.connected_peers)
    (hne : e ≠ SwarmEvent.ConnectionClosed p 0) :
    List.Pairwise (· < ·) (handleSwarmEventCore s e).1.connected_peers
    ∧ p ∈ (handleSwarmEventCore s e).1.connected_peers
    ∧ (handleSwarmEventCore s e).2.countP (Output.isConnectedFor p) = 0 := by
  cases e with
  | Behaviour ev =>
    cases ev with
    | Chat peer message =>
      cases message with
      | Message text ts =>
        exact ⟨hs, hm, by simp [handleSwarmEventCore, Output.isConnectedFor]⟩
      | ChangeNickname nick =>
        refine ⟨hs, hm, ?_⟩
        simp only [handleSwarmEventCore]
        split
        · simp [Output.isConnectedFor]
        · simp
  | NewListenAddr a => exact ⟨hs, hm, rfl⟩
  | ConnectionEstablished q =>
    by_cases hpq : q = p
    · subst hpq
      have hins := setInsert_of_mem q s.connected_peers hs hm
      simp [handleSwarmEventCore, hins, hs, hm]
    · have hqp : (q == p) = false := by
        simp [hpq]
      constructor
      · simpa [handleSwarmEventCore] using
          setInsert_fst_pairwise q s.connected_peers hs
      constructor
      · simpa [handleSwarmEventCore] using
          mem_setInsert_fst p q s.connected_peers hm
      · simp only [handleSwarmEventCore]
        split
        · simp [Output.isConnectedFor, hqp]
        · simp
  | ConnectionClosed q n =>
    by_cases hn : n = 0
    · subst hn
      have hqp : p ≠ q := fun hc => hne (by rw [hc])
      refine ⟨?_, ?_, ?_⟩
      · simpa [handleSwarmEventCore] using
          setRemove_pairwise q s.connected_peers hs
      · simpa [handleSwarmEventCore] using
          mem_setRemove p q s.connected_peers hm hqp
      · simp [handleSwarmEventCore, Output.isConnectedFor]
    · exact ⟨by simp [handleSwarmEventCore, hn, hs],
        by simp [handleSwarmEventCore, hn, hm],
        by simp [handleSwarmEventCore, hn]⟩
  | Other => exact ⟨hs, hm, rfl⟩

/-- C1 counterexample: with peer 0 recorded as connected in the session
state, processing a discovery observation naming peer 0 still enqueues a
dial action for peer 0; the mdns handler never consults the connected
set, so the claimed dedup-at-enqueue does not happen. -/
theorem mdns_dial_enqueued_for_connected_peer :
    (0 : PeerId) ∈ State.connected_peers ⟨[0], []⟩ ∧
    injectMdnsEvent [] (.Discovered [(0, 7)]) =
      [.Dial ⟨0, .Disconnected, [7]⟩] := by decide

/-- C1 (amended): a discovery observation enqueues a dial action for
every observed peer, connected or not, but every enqueued dial carries
the condition PeerCondition.Disconnected, so the swarm suppresses the
dial at execution time if the peer is connected by then. -/
theorem mdns_dials_use_disconnected_condition (obs : List (PeerId × Multiaddr))
    (d : DialOpts) (hd : d ∈ mdnsDials obs) :
    d.condition = PeerCondition.Disconnected := by
  simp only [mdnsDials, List.mem_map] at hd
  obtain ⟨x, _, hx⟩ := hd
  rw [← hx]

/-- C1 witness: the dial enqueued for the observation [(0, 7)] carries
the Disconnected condition. -/
theorem mdns_dials_use_disconnected_condition_witness :
    DialOpts.condition ⟨0, PeerCondition.Disconnected, [7]⟩ =
      PeerCondition.Disconnected :=
  mdns_dials_use_disconnected_condition [(0, 7)]
    ⟨0, PeerCondition.Disconnected, [7]⟩ (by decide)

/-- C2: while peer p stays in the connected set (it is connected at the
start and no event in the sequence closes its last connection), the run
emits no further "connected" notification for p: at most one connected
notification per continuous connected period. -/
theorem connected_notification_dedup (s : State) (evs : List SwarmEvent) (p : PeerId)
    (hs : List.Pairwise (· < ·) s.connected_peers)
    (hm : p ∈ s.connected_peers)
    (hstay : ∀ e ∈ evs, e ≠ SwarmEvent.ConnectionClosed p 0) :
    (runEvents s evs).2.countP (Output.isConnectedFor p) = 0 := by
  induction evs generalizing s with
  | nil => rfl
  | cons e rest ih =>
    simp only [runEvents, List.countP_append]
    have h := step_preserves s e p hs hm (hstay e (by simp))
    rw [h.2.2, ih (handleSwarmEventCore s e).1 h.1 h.2.1
      (fun e' he' => hstay e' (by simp [he']))]

/-- C2 witness: with peer 5 already connected, two further
connection-established events for 5 produce no connected notification. -/
theorem connected_notification_dedup_witness :
    (runEvents ⟨[5], []⟩
        [.ConnectionEstablished 5, .ConnectionEstablished 5]).2.countP
      (Output.isConnectedFor 5) = 0 :=
  connected_notification_dedup ⟨[5], []⟩
    [.ConnectionEstablished 5, .ConnectionEstablished 5] 5
    (by decide) (by decide) (by decide)

/-- C3 counterexample: with an empty connected set, a connection-closed
event with established-count zero for peer 0 still emits a
"disconnected" notification, contradicting the claim that no
notification is produced for a peer not currently in the set. -/
theorem disconnected_notification_without_membership :
    (0 : PeerId) ∉ State.connected_peers ⟨[], []⟩ ∧
    (handleSwarmEventCore ⟨[], []⟩ (.ConnectionClosed 0 0)).2 =
      [.Disconnected 0 (peerToString 0)] := by decide

/-- C3 (amended): a connection-closed event with established-count zero
always emits exactly one "disconnected" notification and removes the
peer, whether or not the peer is in the connected set; the removal of
the set element itself is idempotent (removing an absent peer leaves the
set unchanged), but the notification is not guarded by membership. -/
theorem connection_closed_behavior :
    (∀ (s : State) (p : PeerId),
      handleSwarmEventCore s (.ConnectionClosed p 0) =
        ({ s with connected_peers := setRemove p s.connected_peers },
         [.Disconnected p (displayName s p)]))
    ∧ (∀ (p : PeerId) (l : List PeerId), p ∉ l → setRemove p l = l) := by
  constructor
  · intro s p
    rfl
  · intro p l h
    exact setRemove_of_not_mem p l h

/-- C3 witness: removing absent peer 0 from the set [1, 2] leaves it
unchanged, and closing peer 1's last connection from the empty state
emits the disconnected notification while leaving the empty set. -/
theorem connection_closed_behavior_witness :
    setRemove 0 [1, 2] = [1, 2] ∧
    handleSwarmEventCore ⟨[], []⟩ (.ConnectionClosed 1 0) =
      (⟨[], []⟩, [.Disconnected 1 (peerToString 1)]) := by
  refine ⟨connection_closed_behavior.2 0 [1, 2] (by decide), ?_⟩
  have h := connection_closed_behavior.1 ⟨[], []⟩ 1
  simpa [setRemove] using h

/-- C4: a ChangeNickname event for peer p produces a "changed his name"
notification exactly when the nick differs from the currently recorded
nickname (or from the peer identity's textual form when none is
recorded); an equal nick produces no notification, a differing nick
produces exactly one. -/
theorem nickname_change_idempotent (s : State) (p : PeerId) (nick : RustString)
    (hs : List.Pairwise (fun a b => a.1 < b.1) s.known_nicknames) :
    (handleSwarmEventCore s (.Behaviour (.Chat p (.ChangeNickname nick)))).2 =
      if displayName s p = nick then []
      else [.Renamed p (displayName s p) nick] := by
  simp only [handleSwarmEventCore, displayName]
  rw [mapInsert_snd p nick s.known_nicknames hs]
  by_cases h : (mapGet p s.known_nicknames).getD (peerToString p) = nick
  · simp [h]
  · simp [h]

/-- C4 witness: with peer 3 recorded as "a" (byte 97), a ChangeNickname
to "a" is a no-op, evaluated through the theorem at that state. -/
theorem nickname_change_idempotent_witness :
    (handleSwarmEventCore ⟨[], [(3, [97])]⟩
        (.Behaviour (.Chat 3 (.ChangeNickname [97])))).2 = [] := by
  have h := nickname_change_idempotent ⟨[], [(3, [97])]⟩ 3 [97] (by decide)
  simpa [displayName, mapGet] using h

/-- C6: a gossip message whose payload does not decode to a ChatEnvelope
is dropped silently: the handler pushes no Chat event and leaves the
deferred queue unchanged (decoding itself is a total function into
Option, so no process-level fault can arise). -/
theorem malformed_payload_dropped (events : List NetworkBehaviourAction)
    (propagation_source : PeerId) (mid : Nat) (src : Option PeerId)
    (bs : List Nat) (h : deserializeChatApi bs = none) :
    injectGossipsubEvent events (.Message propagation_source mid ⟨src, bs⟩) =
      events := by
  simp [injectGossipsubEvent, h]

/-- C6 witness: the byte 0xff is not a valid encoding; the handler drops
the message. -/
theorem malformed_payload_dropped_witness :
    injectGossipsubEvent [] (.Message 1 0 ⟨none, [255]⟩) = [] :=
  malformed_payload_dropped [] 1 0 none [255] (by decide)

/-- C7: when zero mesh peers are subscribed, the library publish returns
InsufficientPeers and the publish helper maps it to an Ok outcome with
the "No peers available" notice, not a crash or propagated error. -/
theorem publish_without_peers (meshPeers msgId : Nat) (h : meshPeers = 0) :
    publish (gossipsubLibPublish meshPeers msgId) =
      Except.ok [Output.NoPeers] := by
  subst h
  rfl

/-- C7 witness: publishing with zero mesh peers yields Ok and the
notice. -/
theorem publish_without_peers_witness :
    publish (gossipsubLibPublish 0 0) = Except.ok [Output.NoPeers] :=
  publish_without_peers 0 0 rfl

/-- C8 counterexample: a MessageTooLarge failure from the gossip engine
while publishing (a per-message runtime failure after startup) is
returned as an error by the publish helper, which every call site in the
driving loop propagates with the question-mark operator, terminating the
loop with an error — contradicting the claim that only
initialization-time failures reach the top level. -/
theorem publish_error_propagates :
    publish (Except.error PublishError.MessageTooLarge) =
      Except.error PublishError.MessageTooLarge := rfl

/-- C8 (amended): handling a protocol event never returns an error, and
an InsufficientPeers publish failure is contained and reported with a
notice; however a publish failure of any other kind is returned to the
driving loop and propagated, terminating the process — so besides
initialization-time failures, non-InsufficientPeers publish failures
also reach the top level. -/
theorem error_containment (s : State) (ev : SwarmEvent) (e : PublishError)
    (he : e ≠ PublishError.InsufficientPeers) :
    (handle_swarm_event s ev).isOk = true
    ∧ publish (Except.error PublishError.InsufficientPeers) =
        Except.ok [Output.NoPeers]
    ∧ publish (Except.error e) = Except.error e := by
  refine ⟨rfl, rfl, ?_⟩
  cases e with
  | InsufficientPeers => exact absurd rfl he
  | Duplicate => rfl
  | SigningError => rfl
  | MessageTooLarge => rfl
  | TransformFailed => rfl

/-- C8 witness: a concrete instance of the containment statement. -/
theorem error_containment_witness :
    (handle_swarm_event ⟨[], []⟩ .Other).isOk = true
    ∧ publish (Except.error PublishError.InsufficientPeers) =
        Except.ok [Output.NoPeers]
    ∧ publish (Except.error PublishError.Duplicate) =
        Except.error PublishError.Duplicate :=
  error_containment ⟨[], []⟩ .Other PublishError.Duplicate (by decide)

/-- C9: for a received gossip message whose payload decodes, the Chat
event is attributed to the message's signed source when present, and to
the propagation (relaying) peer otherwise: the attributed peer is
source.getD propagation_source. -/
theorem gossip_origin_attribution (events : List NetworkBehaviourAction)
    (propagation_source : PeerId) (mid : Nat) (src : Option PeerId)
    (bs : List Nat) (m : ChatApi) (h : deserializeChatApi bs = some m) :
    injectGossipsubEvent events (.Message propagation_source mid ⟨src, bs⟩) =
      events ++ [.GenerateEvent (.Chat (src.getD propagation_source) m)] := by
  simp [injectGossipsubEvent, h]

/-- C9 witness: a message with signed source 3 relayed by peer 5 is
attributed to 3. -/
theorem gossip_origin_attribution_witness :
    injectGossipsubEvent []
        (.Message 5 0 ⟨some 3, serializeChatApi (.ChangeNickname [97])⟩) =
      [.GenerateEvent (.Chat 3 (.ChangeNickname [97]))] :=
  gossip_origin_attribution [] 5 0 (some 3)
    (serializeChatApi (.ChangeNickname [97])) (.ChangeNickname [97]) (by decide)

/- Codec round-trip lemmas. -/

theorem readBE_writeBE (k : Nat) : ∀ (n : Nat), n < 256 ^ k →
    ∀ (t : List Nat), readBE k (writeBE k n ++ t) = some (n, t) := by
  induction k with
  | zero =>
    intro n hn t
    have : n = 0 := by omega
    subst this
    rfl
  | succ k ih =>
    intro n hn t
    have hpos : 0 < 256 ^ k := Nat.pos_pow_of_pos k (by omega)
    simp only [writeBE, readBE, List.cons_append, List.append_eq]
    rw [ih (n % 256 ^ k) (Nat.mod_lt n hpos) t]
    simp
    rw [Nat.mul_comm]
    exact Nat.div_add_mod n (256 ^ k)

theorem decodeHead_encodeHead (major arg : Nat) (h : arg < 2 ^ 64) (t : List Nat) :
    decodeHead (encodeHead major arg ++ t) = some (major, arg, t) := by
  unfold encodeHead
  by_cases h1 : arg < 24
  · have hdiv : (major * 32 + arg) / 32 = major := by omega
    have hmod : (major * 32 + arg) % 32 = arg := by omega
    simp [decodeHead, hdiv, hmod, h1]
  · by_cases h2 : arg < 256
    · have hdiv : (major * 32 + 24) / 32 = major := by omega
      have hmod : (major * 32 + 24) % 32 = 24 := by omega
      simp [decodeHead, hdiv, hmod, h1, h2,
        readBE_writeBE 1 arg (by simpa using h2) t]
    · by_cases h3 : arg < 65536
      · have hdiv : (major * 32 + 25) / 32 = major := by omega
        have hmod : (major * 32 + 25) % 32 = 25 := by omega
        simp [decodeHead, hdiv, hmod, h1, h2, h3,
          readBE_writeBE 2 arg (by simpa using h3) t]
      · by_cases h4 : arg < 4294967296
        · have hdiv : (major * 32 + 26) / 32 = major := by omega
          have hmod : (major * 32 + 26) % 32 = 26 := by omega
          simp [decodeHead, hdiv, hmod, h1, h2, h3, h4,
            readBE_writeBE 4 arg (by simpa using h4) t]
        · have hdiv : (major * 32 + 27) / 32 = major := by omega
          have hmod : (major * 32 + 27) % 32 = 27 := by omega
          simp [decodeHead, hdiv, hmod, h1, h2, h3, h4,
            readBE_writeBE 8 arg (by simpa using h) t]

theorem readExact_append (s t : List Nat) : readExact s.length (s ++ t) = some (s, t) := by
  unfold readExact
  rw [if_pos (by simp), List.take_left, List.drop_left]

theorem readText_serText (s : RustString) (hlen : s.length < 2 ^ 64) (t : List Nat) :
    readText (serText s ++ t) = some (s, t) := by
  unfold readText serText
  rw [List.append_assoc, decodeHead_encodeHead 3 s.length hlen]
  exact readExact_append s t

theorem readInt_serInt (i : Int) (h1 : -(2 ^ 63) ≤ i) (h2 : i < 2 ^ 63) (t : List Nat) :
    readInt (serInt i ++ t) = some (i, t) := by
  unfold serInt readInt
  by_cases h : 0 ≤ i
  · rw [if_pos h, decodeHead_encodeHead 0 i.toNat (by omega) t]
    simp [Int.toNat_of_nonneg h]
  · rw [if_neg h, decodeHead_encodeHead 1 (-1 - i).toNat (by omega) t]
    have hv : ((-1 - i).toNat : Int) = -1 - i := Int.toNat_of_nonneg (by omega)
    have hii : -1 - (-1 - i) = i := by omega
    simp only [hv, hii]

/-- Validity of a ChatEnvelope value as constrained by the Rust types:
string lengths fit in usize (64 bits) and the timestamp fits in i64. -/
def ChatApi.Valid : ChatApi → Prop
  | .Message m ts => m.length < 2 ^ 64 ∧ -(2 ^ 63) ≤ ts ∧ ts < 2 ^ 63
  | .ChangeNickname n => n.length < 2 ^ 64

/-- C5: decoding the bytes produced by encoding any valid ChatEnvelope
value yields exactly that value. -/
theorem chatapi_roundtrip (v : ChatApi) (hv : v.Valid) :
    deserializeChatApi (serializeChatApi v) = some v := by
  cases v with
  | Message msg ts =>
    obtain ⟨hlen, hts1, hts2⟩ := hv
    have hInt : readInt (serInt ts) = some (ts, []) := by
      have h := readInt_serInt ts hts1 hts2 []
      rwa [List.append_nil] at h
    simp [serializeChatApi, List.append_assoc, deserializeChatApi,
      decodeHead_encodeHead 5 1 (by norm_num),
      decodeHead_encodeHead 5 2 (by norm_num),
      readText_serText strMessage (by decide),
      readText_serText strMessageField (by decide),
      readText_serText strOriginTimestamp (by decide),
      readText_serText msg hlen,
      hInt]
  | ChangeNickname nick =>
    have hlen : nick.length < 2 ^ 64 := hv
    have hNick : readText (serText nick) = some (nick, []) := by
      have h := readText_serText nick hlen []
      rwa [List.append_nil] at h
    simp [serializeChatApi, List.append_assoc, deserializeChatApi,
      decodeHead_encodeHead 5 1 (by norm_num),
      readText_serText strChangeNickname (by decide),
      readText_serText strNick (by decide),
      (by decide : ¬strChangeNickname = strMessage),
      hNick]

/-- C5 witness: round-trip at a concrete valid envelope. -/
theorem chatapi_roundtrip_witness :
    deserializeChatApi (serializeChatApi (.Message [104, 105] 1700000000000)) =
      some (.Message [104, 105] 1700000000000) :=
  chatapi_roundtrip (.Message [104, 105] 1700000000000) (by constructor <;> decide)

/- Lemmas about the per-peer address grouping of the mdns handler. -/

/-- Lookup in the addrs_per_peer map. -/
def lookupPeer (p : PeerId) : List (PeerId × List Multiaddr) → Option (List Multiaddr)
  | [] => none
  | (q, l) :: rest => if p = q then some l else lookupPeer p rest

theorem lookupPeer_eq_none_of_lt (p : PeerId) (m : List (PeerId × List Multiaddr))
    (h : ∀ x ∈ m, p < x.1) : lookupPeer p m = none := by
  induction m with
  | nil => rfl
  | cons a rest ih =>
    obtain ⟨q, l⟩ := a
    have hpq : p < q := h (q, l) (by simp)
    have hne : ¬(p = q) := Nat.ne_of_lt hpq
    simp only [lookupPeer, if_neg hne]
    exact ih (fun x hx => h x (by simp [hx]))

theorem insertAddr_mem_elim (e : PeerId × List Multiaddr) (p : PeerId) (a : Multiaddr)
    (m : List (PeerId × List Multiaddr)) (h : e ∈ insertAddr p a m) :
    e.1 = p ∨ e ∈ m := by
  induction m with
  | nil =>
    simp only [insertAddr, List.mem_singleton] at h
    left; rw [h]
  | cons b rest ih =>
    obtain ⟨q, l⟩ := b
    by_cases h1 : p = q
    · simp only [insertAddr, if_pos h1] at h
      rcases List.mem_cons.mp h with h2 | h2
      · left; rw [h2, ← h1]
      · right; simp [h2]
    · by_cases h2 : p < q
      · simp only [insertAddr, if_neg h1, if_pos h2] at h
        rcases List.mem_cons.mp h with h3 | h3
        · left; rw [h3]
        · right; exact h3
      · simp only [insertAddr, if_neg h1, if_neg h2] at h
        rcases List.mem_cons.mp h with h3 | h3
        · right; simp [h3]
        · rcases ih h3 with h4 | h4
          · left; exact h4
          · right; simp [h4]

theorem insertAddr_pairwise (p : PeerId) (a : Multiaddr)
    (m : List (PeerId × List Multiaddr))
    (hs : List.Pairwise (fun e f => e.1 < f.1) m) :
    List.Pairwise (fun e f => e.1 < f.1) (insertAddr p a m) := by
  induction m with
  | nil => simp [insertAddr]
  | cons b rest ih =>
    obtain ⟨q, l⟩ := b
    obtain ⟨hb, hrest⟩ := List.pairwise_cons.mp hs
    by_cases h1 : p = q
    · simp only [insertAddr, if_pos h1]
      exact List.pairwise_cons.mpr ⟨fun f hf => hb f hf, hrest⟩
    · by_cases h2 : p < q
      · simp only [insertAddr, if_neg h1, if_pos h2]
        refine List.pairwise_cons.mpr ⟨?_, hs⟩
        intro f hf
        rcases List.mem_cons.mp hf with h3 | h3
        · rw [h3]; exact h2
        · exact lt_trans h2 (hb f h3)
      · simp only [insertAddr, if_neg h1, if_neg h2]
        refine List.pairwise_cons.mpr ⟨?_, ih hrest⟩
        intro f hf
        rcases insertAddr_mem_elim f p a rest hf with h3 | h3
        · rw [h3]
          exact Nat.lt_of_le_of_ne (Nat.le_of_not_lt h2) (fun hc => h1 hc.symm)
        · exact hb f h3

theorem lookupPeer_insertAddr (x p : PeerId) (a : Multiaddr)
    (m : List (PeerId × List Multiaddr))
    (hs : List.Pairwise (fun e f => e.1 < f.1) m) :
    lookupPeer x (insertAddr p a m) =
      if x = p then some ((lookupPeer p m).getD [] ++ [a])
      else lookupPeer x m := by
  induction m with
  | nil =>
    simp [insertAddr, lookupPeer]
  | cons b rest ih =>
    obtain ⟨q, l⟩ := b
    obtain ⟨hb, hrest⟩ := List.pairwise_cons.mp hs
    by_cases h1 : p = q
    · subst h1
      by_cases hx : x = p
      · simp [insertAddr, lookupPeer, hx]
      · simp [insertAddr, lookupPeer, hx]
    · by_cases h2 : p < q
      · have hr : lookupPeer p rest = none :=
          lookupPeer_eq_none_of_lt p rest (fun y hy => lt_trans h2 (hb y hy))
        by_cases hx : x = p
        · simp [insertAddr, lookupPeer, if_neg h1, if_pos h2, hx, hr]
        · simp [insertAddr, lookupPeer, if_neg h1, if_pos h2, hx]
      · by_cases hx : x = q
        · have hqp : ¬(q = p) := fun hc => h1 hc.symm
          simp [insertAddr, lookupPeer, if_neg h1, if_neg h2, hx, hqp]
        · simp only [insertAddr, if_neg h1, if_neg h2, lookupPeer, if_neg hx]
          rw [ih hrest]

/-- Append new addresses to an optional existing address list, as the
grouping fold does: none with nothing to add stays none. -/
def optAppend (o : Option (List Multiaddr)) (l : List Multiaddr) :
    Option (List Multiaddr) :=
  match o, l with
  | none, [] => none
  | _, _ => some (o.getD [] ++ l)

theorem optAppend_nil (o : Option (List Multiaddr)) : optAppend o [] = o := by
  cases o <;> simp [optAppend]

theorem optAppend_some (x : List Multiaddr) (l : List Multiaddr) :
    optAppend (some x) l = some (x ++ l) := by
  cases l <;> simp [optAppend]

theorem optAppend_cons (o : Option (List Multiaddr)) (a : Multiaddr)
    (v : List Multiaddr) : optAppend o (a :: v) = some (o.getD [] ++ a :: v) := by
  cases o <;> rfl

theorem optAppend_none_ne_nil (l : List Multiaddr) (h : l ≠ []) :
    optAppend none l = some l := by
  cases l with
  | nil => exact absurd rfl h
  | cons a v => rfl

theorem lookupPeer_foldl (p : PeerId) (obs : List (PeerId × Multiaddr)) :
    ∀ (m : List (PeerId × List Multiaddr)),
      List.Pairwise (fun e f => e.1 < f.1) m →
      lookupPeer p (obs.foldl (fun acc pa => insertAddr pa.1 pa.2 acc) m) =
        optAppend (lookupPeer p m)
          ((obs.filter (fun pa => pa.1 == p)).map Prod.snd) := by
  induction obs with
  | nil =>
    intro m _
    simp [optAppend_nil]
  | cons qa rest ih =>
    intro m hs
    obtain ⟨q, a⟩ := qa
    have hs' := insertAddr_pairwise q a m hs
    simp only [List.foldl_cons]
    rw [ih (insertAddr q a m) hs']
    rw [lookupPeer_insertAddr p q a m hs]
    by_cases hpq : p = q
    · subst hpq
      rw [if_pos rfl]
      have hfil : List.filter (fun pa => pa.1 == p) ((p, a) :: rest) =
          (p, a) :: List.filter (fun pa => pa.1 == p) rest := by
        simp [List.filter_cons]
      rw [hfil, optAppend_some]
      simp only [List.map_cons]
      rw [optAppend_cons, List.append_assoc]
      rfl
    · rw [if_neg hpq]
      have hqp : ¬(q = p) := fun hc => hpq hc.symm
      have hfil : List.filter (fun pa => pa.1 == p) ((q, a) :: rest) =
          List.filter (fun pa => pa.1 == p) rest := by
        simp [List.filter_cons, hqp]
      rw [hfil]

theorem addrsPerPeer_pairwise (obs : List (PeerId × Multiaddr)) :
    List.Pairwise (fun e f => e.1 < f.1) (addrsPerPeer obs) := by
  have h : ∀ (m : List (PeerId × List Multiaddr)),
      List.Pairwise (fun e f => e.1 < f.1) m →
      List.Pairwise (fun e f => e.1 < f.1)
        (obs.foldl (fun acc pa => insertAddr pa.1 pa.2 acc) m) := by
    induction obs with
    | nil => intro m hm; simpa using hm
    | cons qa rest ih =>
      intro m hm
      simp only [List.foldl_cons]
      exact ih (insertAddr qa.1 qa.2 m) (insertAddr_pairwise qa.1 qa.2 m hm)
  exact h [] (by simp)

theorem lookup_addrsPerPeer (p : PeerId) (obs : List (PeerId × Multiaddr)) :
    lookupPeer p (addrsPerPeer obs) =
      optAppend none ((obs.filter (fun pa => pa.1 == p)).map Prod.snd) := by
  unfold addrsPerPeer
  rw [lookupPeer_foldl p obs [] (by simp)]
  rfl

theorem lookupPeer_of_mem (p : PeerId) (l : List Multiaddr)
    (m : List (PeerId × List Multiaddr))
    (hs : List.Pairwise (fun e f => e.1 < f.1) m) (h : (p, l) ∈ m) :
    lookupPeer p m = some l := by
  induction m with
  | nil => cases h
  | cons b rest ih =>
    obtain ⟨q, w⟩ := b
    obtain ⟨hb, hrest⟩ := List.pairwise_cons.mp hs
    rcases List.mem_cons.mp h with h1 | h1
    · obtain ⟨hpq, hlw⟩ := Prod.mk.injEq .. ▸ h1
      simp [lookupPeer, hpq, hlw]
    · have hlt : q < p := hb (p, l) h1
      have hne : ¬(p = q) := fun hc => Nat.lt_irrefl q (by rw [hc] at hlt; exact hlt)
      simp only [lookupPeer, if_neg hne]
      exact ih hrest h1

theorem mem_of_lookupPeer (p : PeerId) (l : List Multiaddr)
    (m : List (PeerId × List Multiaddr)) (h : lookupPeer p m = some l) :
    (p, l) ∈ m := by
  induction m with
  | nil => cases h
  | cons b rest ih =>
    obtain ⟨q, w⟩ := b
    by_cases h1 : p = q
    · simp only [lookupPeer, if_pos h1] at h
      have hw : w = l := Option.some_inj.mp h
      exact List.mem_cons.mpr (Or.inl (by rw [h1, hw]))
    · simp only [lookupPeer, if_neg h1] at h
      right
      exact ih h

theorem optAppend_none_some (l x : List Multiaddr) (h : optAppend none l = some x) :
    x = l := by
  cases l with
  | nil => exact Option.noConfusion h
  | cons a v => exact (Option.some_inj.mp h).symm

/-- C10: processing one mdns Discovered event enqueues the dial actions
after the existing queue contents; there is exactly one dial per distinct
observed peer, listed in strictly ascending peer-identity order; each
dial carries all addresses observed for that peer in the event, in
observation order; and a dial exists exactly for the observed peers. -/
theorem mdns_discovered_grouping (obs : List (PeerId × Multiaddr)) :
    (∀ q, injectMdnsEvent q (.Discovered obs) =
        q ++ (mdnsDials obs).map NetworkBehaviourAction.Dial)
    ∧ List.Pairwise (fun d e => d.peer < e.peer) (mdnsDials obs)
    ∧ (∀ d ∈ mdnsDials obs,
        d.addresses = (obs.filter (fun pa => pa.1 == d.peer)).map Prod.snd)
    ∧ (∀ p, (∃ a, (p, a) ∈ obs) ↔ ∃ d ∈ mdnsDials obs, d.peer = p) := by
  refine ⟨fun q => rfl, ?_, ?_, ?_⟩
  · unfold mdnsDials
    rw [List.pairwise_map]
    exact addrsPerPeer_pairwise obs
  · intro d hd
    unfold mdnsDials at hd
    rw [List.mem_map] at hd
    obtain ⟨e, he, hmk⟩ := hd
    obtain ⟨ep, el⟩ := e
    have hlk := lookupPeer_of_mem ep el _ (addrsPerPeer_pairwise obs) he
    rw [lookup_addrsPerPeer] at hlk
    have hel := optAppend_none_some _ _ hlk
    rw [← hmk]
    simpa using hel
  · intro p
    constructor
    · rintro ⟨a, ha⟩
      have hmem : (p, a) ∈ obs.filter (fun pa => pa.1 == p) :=
        List.mem_filter.mpr ⟨ha, by simp⟩
      have hne : (obs.filter (fun pa => pa.1 == p)).map Prod.snd ≠ [] := by
        intro hc
        rw [List.map_eq_nil_iff] at hc
        rw [hc] at hmem
        cases hmem
      have hlk : lookupPeer p (addrsPerPeer obs) =
          some ((obs.filter (fun pa => pa.1 == p)).map Prod.snd) := by
        rw [lookup_addrsPerPeer]
        exact optAppend_none_ne_nil _ hne
      have hm := mem_of_lookupPeer p _ _ hlk
      exact ⟨⟨p, .Disconnected, (obs.filter (fun pa => pa.1 == p)).map Prod.snd⟩,
        List.mem_map.mpr ⟨(p, (obs.filter (fun pa => pa.1 == p)).map Prod.snd),
          hm, rfl⟩, rfl⟩
    · rintro ⟨d, hd, hpeer⟩
      unfold mdnsDials at hd
      rw [List.mem_map] at hd
      obtain ⟨e, he, hmk⟩ := hd
      obtain ⟨ep, el⟩ := e
      have hep : ep = p := by
        rw [← hpeer, ← hmk]
      subst hep
      have hlk := lookupPeer_of_mem ep el _ (addrsPerPeer_pairwise obs) he
      rw [lookup_addrsPerPeer] at hlk
      rcases hobs : obs.filter (fun pa => pa.1 == ep) with _ | ⟨pa, pas⟩
      · rw [hobs] at hlk
        exact Option.noConfusion hlk
      · have hpa : pa ∈ obs.filter (fun pa => pa.1 == ep) := by
          rw [hobs]
          exact List.mem_cons_self pa pas
        obtain ⟨hobsmem, hfst⟩ := List.mem_filter.mp hpa
        have hfst2 : pa.1 = ep := by simpa using hfst
        refine ⟨pa.2, ?_⟩
        have hpair : (ep, pa.2) = pa := by
          rw [← hfst2]
        rw [hpair]
        exact hobsmem

/-- C10 witness: the grouping behavior evaluated via the theorem at a
concrete observation list with a duplicated peer. -/
theorem mdns_discovered_grouping_witness :
    injectMdnsEvent [] (.Discovered [(1, 7), (0, 3), (1, 4)]) =
      [] ++ (mdnsDials [(1, 7), (0, 3), (1, 4)]).map NetworkBehaviourAction.Dial
    ∧ List.Pairwise (fun d e => d.peer < e.peer)
        (mdnsDials [(1, 7), (0, 3), (1, 4)]) :=
  ⟨(mdns_discovered_grouping [(1, 7), (0, 3), (1, 4)]).1 [],
   (mdns_discovered_grouping [(1, 7), (0, 3), (1, 4)]).2.1⟩
